import Mathlib

/-!
Verification of the lettermint-go webhook signature verifier.

The development shallowly embeds the webhook verification path of the Go
SDK: parseSignature, computeHMAC, secureCompare and VerifyWebhook.
Strings are modelled as Lean strings (their character lists standing for
the byte sequences Go slices out of them); the raw HMAC-SHA-256 keyed hash
and the JSON decoding of the event payload live in the Go standard library,
outside this repository, and are taken as function parameters.  Machine
integer (int64) arithmetic is modelled on Int with explicit two's
complement wrap around where the Go code can overflow.
-/

namespace Lettermint

/-- White space as Go's unicode.IsSpace reports it in the Latin-1 range:
the characters strings.TrimSpace strips from both ends. -/
def goIsSpace (c : Char) : Bool :=
  c = ' ' || c = '\t' || c = '\n' || c = '\x0b' || c = '\x0c' || c = '\r' ||
  c = '\x85' || c = '\xa0'

/-- strings.TrimSpace on a character list: drop white space from both ends. -/
def trimSpace (l : List Char) : List Char :=
  ((l.dropWhile goIsSpace).reverse.dropWhile goIsSpace).reverse

/-- strings.Split with separator a single comma: Go yields one part for the
empty string and one more part than there are commas in general. -/
def splitComma : List Char → List (List Char)
  | [] => [[]]
  | c :: rest =>
    if c = ',' then [] :: splitComma rest
    else
      match splitComma rest with
      | [] => [[c]]
      | p :: ps => (c :: p) :: ps

/-- strings.SplitN with separator an equals sign and limit 2: the part before
the first equals sign paired with everything after it, or none when the part
has no equals sign at all (the Go call then yields a one element slice, whose
length is not 2, and the parsing loop skips the part). -/
def splitEq1 : List Char → Option (List Char × List Char)
  | [] => none
  | c :: rest =>
    if c = '=' then some ([], rest)
    else (splitEq1 rest).map (fun p => (c :: p.1, p.2))

/-- Decimal value of a digit character, none for a non digit (strconv
rejects every other character in base 10). -/
def digitVal (c : Char) : Option Nat :=
  if 48 ≤ c.toNat ∧ c.toNat ≤ 57 then some (c.toNat - 48) else none

/-- One step of the decimal accumulation: shift the value by one digit, or
poison the accumulator on a non digit. -/
def digitStep (acc : Option Nat) (c : Char) : Option Nat :=
  match acc, digitVal c with
  | some a, some d => some (a * 10 + d)
  | _, _ => none

/-- The numeric value of a digit string, none when it is empty or some
character is not a decimal digit. -/
def parseDigits (l : List Char) : Option Nat :=
  match l with
  | [] => none
  | _ => l.foldl digitStep (some 0)

/-- strconv.ParseInt with base 10 and bitSize 64: an optional single sign,
then at least one decimal digit, and the value must fit in a signed 64 bit
integer; none models a non nil error. -/
def parseInt64 (l : List Char) : Option Int :=
  match l with
  | [] => none
  | c :: rest =>
    if c = '-' then
      match parseDigits rest with
      | some n => if (n : Int) ≤ 2 ^ 63 then some (-(n : Int)) else none
      | none => none
    else if c = '+' then
      match parseDigits rest with
      | some n => if (n : Int) ≤ 2 ^ 63 - 1 then some (n : Int) else none
      | none => none
    else
      match parseDigits (c :: rest) with
      | some n => if (n : Int) ≤ 2 ^ 63 - 1 then some (n : Int) else none
      | none => none

/-- The error kinds the verifier surfaces: the sentinel
ErrInvalidWebhookSignature, the sentinel ErrWebhookTimestampExpired, and
the wrapped json.Unmarshal failure on an authenticated payload. -/
inductive WebhookError where
  | invalidSignature
  | timestampExpired
  | payloadParse
  deriving DecidableEq, Repr

/-- One key value pair of the signature header: the comma separated segment
split at its first equals sign, both sides trimmed. -/
def kvOf (part : List Char) : Option (List Char × List Char) :=
  (splitEq1 part).map (fun p => (trimSpace p.1, trimSpace p.2))

/-- The loop of parseSignature over the comma separated parts, threading the
timestamp and hash fields; none models the early error return on a t value
that strconv.ParseInt rejects.  A part without an equals sign is skipped,
an unknown key is ignored, and a later t or v1 overwrites an earlier one. -/
def processParts : List (List Char) → Int → List Char → Option (Int × List Char)
  | [], ts, h => some (ts, h)
  | p :: rest, ts, h =>
    match kvOf p with
    | none => processParts rest ts h
    | some (k, v) =>
      if k = ['t'] then
        match parseInt64 v with
        | none => none
        | some n => processParts rest n h
      else if k = ['v', '1'] then processParts rest ts v
      else processParts rest ts h

/-- parseSignature: split the header value on commas, require at least two
parts, run the loop, then reject a zero timestamp and an empty hash.  Every
failure wraps the sentinel ErrInvalidWebhookSignature. -/
def parseSignature (s : String) : Except WebhookError (Int × String) :=
  let parts := splitComma s.toList
  if parts.length < 2 then .error .invalidSignature
  else
    match processParts parts 0 [] with
    | none => .error .invalidSignature
    | some (ts, h) =>
      if ts = 0 then .error .invalidSignature
      else if h = [] then .error .invalidSignature
      else .ok (ts, String.mk h)

/-- The lower case digit table of encoding/hex. -/
def hexDigit (n : Nat) : Char :=
  if n < 10 then Char.ofNat (48 + n) else Char.ofNat (87 + n)

/-- encoding/hex.EncodeToString over a byte list: the high then the low
nibble of every byte, in lower case. -/
def hexEncode (bs : List Nat) : List Char :=
  bs.foldr (fun b acc => hexDigit (b / 16 % 16) :: hexDigit (b % 16) :: acc) []

/-- computeHMAC: hex encode the MAC bytes.  The raw HMAC-SHA-256 keyed hash
(crypto/hmac with crypto/sha256, standard library code outside this
repository) is the hmacBytes parameter, taking the key and the data to the
MAC byte list. -/
def computeHMAC (hmacBytes : String → String → List Nat) (data : String)
    (secret : String) : String :=
  String.mk (hexEncode (hmacBytes secret data))

/-- The loop of crypto/subtle.ConstantTimeCompare: it ors together the xors
of the paired bytes, and the second component counts how many byte
operations the loop ran. -/
def ctAccum : List (Nat × Nat) → Nat → Nat × Nat
  | [], v => (v, 0)
  | p :: rest, v =>
    let r := ctAccum rest (v ||| (p.1 ^^^ p.2))
    (r.1, r.2 + 1)

/-- crypto/subtle.ConstantTimeCompare: 0 straight away when the lengths
differ, else 1 exactly when the or of the bytewise xors accumulates to 0. -/
def constantTimeCompare (x y : List Nat) : Nat :=
  if x.length = y.length then
    if (ctAccum (x.zip y) 0).1 = 0 then 1 else 0
  else 0

/-- How many byte operations the comparison loop runs: none when the length
gate inside constantTimeCompare fails, one per byte pair otherwise. -/
def constantTimeSteps (x y : List Nat) : Nat :=
  if x.length = y.length then (ctAccum (x.zip y) 0).2 else 0

/-- The byte values a string is compared by (the character codes of the
model, standing for the bytes Go converts the string to). -/
def strBytes (s : String) : List Nat := s.data.map Char.toNat

/-- secureCompare: constant time string comparison through
subtle.ConstantTimeCompare. -/
def secureCompare (a b : String) : Bool :=
  constantTimeCompare (strBytes a) (strBytes b) == 1

/-- The number of byte operations secureCompare performs on its inputs. -/
def secureCompareSteps (a b : String) : Nat :=
  constantTimeSteps (strBytes a) (strBytes b)

/-- Delivery response details of a webhook event (types.go). -/
structure WebhookResponse where
  statusCode : Int
  message : String
  deriving DecidableEq, Repr

/-- Event specific data of a webhook payload (types.go). -/
structure WebhookEventData where
  messageId : String
  recipient : String
  tag : String
  metadata : List (String × String)
  response : Option WebhookResponse
  deriving DecidableEq, Repr

/-- A parsed webhook payload (types.go); rawPayload is the field
VerifyWebhook sets to the original body after a successful parse. -/
structure WebhookEvent where
  id : String
  event : String
  timestamp : Int
  data : WebhookEventData
  rawPayload : String
  deriving DecidableEq, Repr

/-- The character of a decimal digit. -/
def digitChar (n : Nat) : Char := Char.ofNat (48 + n)

/-- Decimal digits of a natural number, most significant first, written with
structural recursion on a fuel bound so that concrete values reduce in the
kernel; the fuel exceeds the number of digits whenever fuel is above n. -/
def natDecFuel : Nat → Nat → List Char → List Char
  | 0, _, acc => acc
  | fuel + 1, n, acc =>
    if n < 10 then digitChar n :: acc
    else natDecFuel fuel (n / 10) (digitChar (n % 10) :: acc)

/-- Decimal rendering of a natural number (fmt uses strconv.FormatInt). -/
def natDec (n : Nat) : List Char := natDecFuel (n + 1) n []

/-- fmt's percent d of a signed 64 bit value: a minus sign then the
magnitude for a negative value, the plain digits otherwise. -/
def intDec (i : Int) : List Char :=
  if i < 0 then '-' :: natDec (-i).toNat else natDec i.toNat

/-- The signed payload string of VerifyWebhook: fmt.Sprintf of the
timestamp, a dot, and the raw payload. -/
def signedPayload (ts : Int) (payload : String) : String :=
  String.mk (intDec ts) ++ "." ++ payload

/-- Two's complement wrap around of a signed 64 bit operation: the value Go
int64 arithmetic yields, in the interval from minus 2 to the 63 up to
2 to the 63 minus one. -/
def wrap64 (x : Int) : Int := (x + 2 ^ 63) % 2 ^ 64 - 2 ^ 63

/-- The timestamp tolerance gate of VerifyWebhook in Go int64 arithmetic:
diff is now minus the signature timestamp, negated when negative, and
time.Duration(diff) times time.Second (ten to the ninth nanoseconds) is
compared against the tolerance in nanoseconds.  Each operation wraps. -/
def toleranceExceeded (now sigTimestamp tolerance : Int) : Bool :=
  let diff0 := wrap64 (now - sigTimestamp)
  let diff := if diff0 < 0 then wrap64 (-diff0) else diff0
  wrap64 (diff * 1000000000) > tolerance

/-- VerifyWebhook.  The JSON decoding of the payload (encoding/json,
standard library code outside this repository) is the parseEvent parameter,
none modelling an Unmarshal error; now is the value time.Now().Unix()
returned during the call; tolerance is the time.Duration in nanoseconds. -/
def VerifyWebhook (hmacBytes : String → String → List Nat)
    (parseEvent : String → Option WebhookEvent) (now : Int)
    (signature : String) (payload : String) (deliveryTimestamp : Int)
    (signingSecret : String) (tolerance : Int) :
    Except WebhookError WebhookEvent :=
  if signingSecret = "" then .error .invalidSignature
  else if signature = "" then .error .invalidSignature
  else
    match parseSignature signature with
    | .error e => .error e
    | .ok (sigTimestamp, sigHash) =>
      if deliveryTimestamp ≠ 0 ∧ deliveryTimestamp ≠ sigTimestamp then
        .error .invalidSignature
      else if toleranceExceeded now sigTimestamp tolerance then
        .error .timestampExpired
      else
        if !secureCompare sigHash
            (computeHMAC hmacBytes (signedPayload sigTimestamp payload) signingSecret) then
          .error .invalidSignature
        else
          match parseEvent payload with
          | none => .error .payloadParse
          | some event => .ok { event with rawPayload := payload }

/-- VerifyWebhook with the cross validation branch removed: following the
specification's words, the reference behavior for an absent (zero) delivery
timestamp, whose check is skipped entirely. -/
def VerifyWebhookSkipCross (hmacBytes : String → String → List Nat)
    (parseEvent : String → Option WebhookEvent) (now : Int)
    (signature : String) (payload : String)
    (signingSecret : String) (tolerance : Int) :
    Except WebhookError WebhookEvent :=
  if signingSecret = "" then .error .invalidSignature
  else if signature = "" then .error .invalidSignature
  else
    match parseSignature signature with
    | .error e => .error e
    | .ok (sigTimestamp, sigHash) =>
      if toleranceExceeded now sigTimestamp tolerance then
        .error .timestampExpired
      else
        if !secureCompare sigHash
            (computeHMAC hmacBytes (signedPayload sigTimestamp payload) signingSecret) then
          .error .invalidSignature
        else
          match parseEvent payload with
          | none => .error .payloadParse
          | some event => .ok { event with rawPayload := payload }

/-- Ghost form of the decimal rendering, recursive on the value; it equals
natDec and is easier to induct on. -/
def natDecG (n : Nat) : List Char :=
  if n < 10 then [digitChar n]
  else natDecG (n / 10) ++ [digitChar (n % 10)]
decreasing_by exact Nat.div_lt_self (by omega) (by norm_num)

/-- Does a part carry key t with a value strconv rejects?  This is the one
condition on which the parsing loop returns early with an error. -/
def isBadT (part : List Char) : Bool :=
  match kvOf part with
  | none => false
  | some (k, v) => if k = ['t'] then (parseInt64 v).isNone else false

/-- One error free step of the parsing loop on the timestamp and hash pair. -/
def stepTV (st : Int × List Char) (part : List Char) : Int × List Char :=
  match kvOf part with
  | none => st
  | some (k, v) =>
    if k = ['t'] then
      match parseInt64 v with
      | none => st
      | some n => (n, st.2)
    else if k = ['v', '1'] then (st.1, v)
    else st

/-- The token the round trip property generates:
t equals the rendered timestamp, v1 the given hash. -/
def genToken (T : Int) (hash : String) : String :=
  "t=" ++ String.mk (intDec T) ++ ",v1=" ++ hash

/-- The specification's failure condition for the token parser, following
its words: fewer than two comma separated segments, a segment whose key is
t with a value that is not a valid integer, a timestamp that is missing or
zero, or a hash that is missing or empty — the last two read off the
timestamp and hash fields the key value loop leaves behind. -/
def specParseFailure (s : String) : Prop :=
  (splitComma s.toList).length < 2 ∨
  (∃ part ∈ splitComma s.toList, isBadT part = true) ∨
  (List.foldl stepTV (0, []) (splitComma s.toList)).1 = 0 ∨
  (List.foldl stepTV (0, []) (splitComma s.toList)).2 = []

/-- Decidable equality of verification results, so that concrete runs can be
checked by evaluation. -/
instance {ε α : Type} [DecidableEq ε] [DecidableEq α] : DecidableEq (Except ε α) :=
  fun a b =>
    match a, b with
    | .error e, .error f => decidable_of_iff (e = f) (by simp)
    | .ok x, .ok y => decidable_of_iff (x = y) (by simp)
    | .error _, .ok _ => isFalse (by simp)
    | .ok _, .error _ => isFalse (by simp)

/-! ### Characters and bytes -/

lemma char_eq_of_toNat_eq {a b : Char} (h : a.toNat = b.toNat) : a = b :=
  Char.ext (UInt32.ext h)

lemma charToNat_injective : Function.Injective Char.toNat :=
  fun _ _ h => char_eq_of_toNat_eq h

lemma strBytes_inj {a b : String} (h : strBytes a = strBytes b) : a = b := by
  unfold strBytes at h
  have hdata : a.data = b.data :=
    (List.map_injective_iff.mpr charToNat_injective) h
  cases a
  cases b
  exact congrArg String.mk hdata

/-! ### The constant time comparison -/

lemma lor_eq_zero_iff {a b : Nat} : a ||| b = 0 ↔ a = 0 ∧ b = 0 := by
  constructor
  · intro h
    constructor
    all_goals
      apply Nat.eq_of_testBit_eq
      intro i
      have ht := congrArg (fun x => Nat.testBit x i) h
      simp only [Nat.testBit_or, Nat.zero_testBit, Bool.or_eq_false_iff] at ht
      simp [ht.1, ht.2]
  · rintro ⟨rfl, rfl⟩
    rfl

lemma ctAccum_fst_eq_zero :
    ∀ (l : List (Nat × Nat)) (v : Nat),
      (ctAccum l v).1 = 0 ↔ v = 0 ∧ ∀ p ∈ l, p.1 = p.2 := by
  intro l
  induction l with
  | nil => intro v; simp [ctAccum]
  | cons p rest ih =>
    intro v
    simp only [ctAccum]
    rw [ih]
    constructor
    · rintro ⟨hv, hall⟩
      rcases lor_eq_zero_iff.mp hv with ⟨hv0, hx⟩
      refine ⟨hv0, ?_⟩
      intro q hq
      rcases List.mem_cons.mp hq with h1 | h2
      · subst h1; exact Nat.xor_eq_zero.mp hx
      · exact hall q h2
    · rintro ⟨hv0, hall⟩
      subst hv0
      refine ⟨?_, fun q hq => hall q (List.mem_cons_of_mem p hq)⟩
      have hp : p.1 = p.2 := hall p (List.mem_cons_self p rest)
      simp [Nat.xor_eq_zero.mpr hp]

lemma ctAccum_snd : ∀ (l : List (Nat × Nat)) (v : Nat), (ctAccum l v).2 = l.length := by
  intro l
  induction l with
  | nil => intro v; rfl
  | cons p rest ih => intro v; simp [ctAccum, ih]

lemma eq_of_zip_eq :
    ∀ (x y : List Nat), x.length = y.length → (∀ p ∈ x.zip y, p.1 = p.2) → x = y := by
  intro x
  induction x with
  | nil =>
    intro y hlen _
    cases y with
    | nil => rfl
    | cons b ys => simp at hlen
  | cons a xs ih =>
    intro y hlen hz
    cases y with
    | nil => simp at hlen
    | cons b ys =>
      have h1 : a = b := hz (a, b) (by simp [List.zip_cons_cons])
      have h2 : xs = ys := by
        refine ih ys (by simpa using hlen) ?_
        intro p hp
        exact hz p (by simp [List.zip_cons_cons, hp])
      rw [h1, h2]

lemma mem_zip_self_eq : ∀ (x : List Nat) (p : Nat × Nat), p ∈ x.zip x → p.1 = p.2 := by
  intro x
  induction x with
  | nil => intro p hp; simp at hp
  | cons a xs ih =>
    intro p hp
    rcases List.mem_cons.mp (by simpa [List.zip_cons_cons] using hp) with h1 | h2
    · subst h1; rfl
    · exact ih p h2

lemma constantTimeCompare_eq_one {x y : List Nat} :
    constantTimeCompare x y = 1 ↔ x = y := by
  unfold constantTimeCompare
  split
  case isTrue hlen =>
    split
    case isTrue hz =>
      have hxy : x = y := eq_of_zip_eq x y hlen ((ctAccum_fst_eq_zero _ _).mp hz).2
      simp [hxy]
    case isFalse hz =>
      constructor
      · intro h0; exact absurd h0 (by norm_num)
      · intro hxy
        subst hxy
        exact absurd ((ctAccum_fst_eq_zero _ _).mpr ⟨rfl, mem_zip_self_eq x⟩) hz
  case isFalse hlen =>
    constructor
    · intro h0; exact absurd h0 (by norm_num)
    · intro hxy; exact absurd (congrArg List.length hxy) hlen

lemma secureCompare_iff {a b : String} : secureCompare a b = true ↔ a = b := by
  unfold secureCompare
  rw [beq_iff_eq, constantTimeCompare_eq_one]
  constructor
  · exact strBytes_inj
  · rintro rfl; rfl

lemma strBytes_length (s : String) : (strBytes s).length = s.length := by
  unfold strBytes
  rw [List.length_map]
  rfl

/-- C8: secureCompare a b returns true when a and b are equal (the empty
strings included), false when they are equal length but differ, and false
when their lengths differ, whichever is shorter; that is, it decides
exactly string equality. -/
theorem secureCompare_decides_equality : ∀ a b : String, secureCompare a b = true ↔ a = b :=
  fun _ _ => secureCompare_iff

/-- C9: the hash comparison is constant time in the byte content.  The
instrumented step count of the comparison loop is the full common length
for equal length inputs, so two runs on equal length inputs always perform
the same number of byte operations, no matter where the first mismatching
byte is; the length requirement itself is decided inside
constantTimeCompare (secureCompare contains no length test), and a length
mismatch performs zero byte content operations. -/
theorem secureCompare_constant_time :
    ∀ a b c d : String, a.length = b.length → c.length = d.length →
      a.length = c.length →
      secureCompareSteps a b = secureCompareSteps c d ∧
      secureCompareSteps a b = a.length ∧
      (∀ e f : String, e.length ≠ f.length → secureCompareSteps e f = 0) := by
  intro a b c d hab hcd hac
  have run : ∀ x y : String, x.length = y.length → secureCompareSteps x y = x.length := by
    intro x y hxy
    unfold secureCompareSteps constantTimeSteps
    rw [if_pos (by rw [strBytes_length, strBytes_length, hxy])]
    rw [ctAccum_snd]
    rw [List.length_zip, strBytes_length, strBytes_length, hxy, Nat.min_self, ← hxy]
  refine ⟨?_, run a b hab, ?_⟩
  · rw [run a b hab, run c d hcd, hac]
  · intro e f hef
    unfold secureCompareSteps constantTimeSteps
    rw [if_neg (by rw [strBytes_length, strBytes_length]; exact hef)]

/-- Witness for C9 at concrete inputs of length three. -/
theorem secureCompare_constant_time_witness :
    ("abc" : String).length = ("abd" : String).length ∧
      secureCompareSteps "abc" "abd" = secureCompareSteps "xyz" "xyz" ∧
      secureCompareSteps "abc" "abd" = ("abc" : String).length :=
  ⟨by decide,
    (secureCompare_constant_time "abc" "abd" "xyz" "xyz" (by decide) (by decide) (by decide)).1,
    (secureCompare_constant_time "abc" "abd" "xyz" "xyz" (by decide) (by decide) (by decide)).2.1⟩

/-! ### Two's complement wrap around -/

lemma wrap64_eq_self {x : Int} (h1 : -(2 ^ 63) ≤ x) (h2 : x < 2 ^ 63) : wrap64 x = x := by
  unfold wrap64
  rw [Int.emod_eq_of_lt (by omega) (by omega)]
  omega

lemma wrap64_lb (x : Int) : -(2 ^ 63) ≤ wrap64 x := by
  unfold wrap64
  have := Int.emod_nonneg (x + 2 ^ 63) (b := 2 ^ 64) (by norm_num)
  omega

lemma wrap64_ub (x : Int) : wrap64 x < 2 ^ 63 := by
  unfold wrap64
  have := Int.emod_lt_of_pos (x + 2 ^ 63) (b := 2 ^ 64) (by norm_num)
  omega

/-! ### Decimal rendering and its round trip through the parser -/

lemma natDecFuel_eq_natDecG :
    ∀ (fuel n : Nat) (acc : List Char), n < fuel →
      natDecFuel fuel n acc = natDecG n ++ acc := by
  intro fuel
  induction fuel with
  | zero => intro n acc h; omega
  | succ f ih =>
    intro n acc h
    by_cases h10 : n < 10
    · rw [natDecFuel, if_pos h10, natDecG, if_pos h10]
      rfl
    · have hdiv : n / 10 < n := Nat.div_lt_self (by omega) (by norm_num)
      rw [natDecFuel, if_neg h10, ih (n / 10) _ (by omega)]
      conv_rhs => rw [natDecG]
      rw [if_neg h10, List.append_assoc]
      rfl

lemma natDec_eq_natDecG (n : Nat) : natDec n = natDecG n := by
  rw [natDec, natDecFuel_eq_natDecG (n + 1) n [] (by omega), List.append_nil]

lemma digitChar_toNat {n : Nat} (h : n < 10) : (digitChar n).toNat = 48 + n := by
  interval_cases n <;> decide

lemma digitVal_digitChar {n : Nat} (h : n < 10) : digitVal (digitChar n) = some n := by
  interval_cases n <;> decide

lemma natDecG_digits : ∀ n : Nat, ∀ c ∈ natDecG n, 48 ≤ c.toNat ∧ c.toNat ≤ 57 := by
  intro n
  induction n using Nat.strong_induction_on with
  | _ n ih =>
    intro c hc
    rw [natDecG] at hc
    by_cases h10 : n < 10
    · rw [if_pos h10] at hc
      rcases List.mem_singleton.mp hc with rfl
      rw [digitChar_toNat h10]
      omega
    · rw [if_neg h10] at hc
      rcases List.mem_append.mp hc with h1 | h2
      · exact ih (n / 10) (Nat.div_lt_self (by omega) (by norm_num)) c h1
      · rcases List.mem_singleton.mp h2 with rfl
        rw [digitChar_toNat (Nat.mod_lt n (by norm_num))]
        have := Nat.mod_lt n (y := 10) (by norm_num)
        omega

lemma natDecG_ne_nil (n : Nat) : natDecG n ≠ [] := by
  rw [natDecG]
  by_cases h10 : n < 10
  · rw [if_pos h10]; simp
  · rw [if_neg h10]; simp

lemma digitStep_some {a d : Nat} {c : Char} (h : digitVal c = some d) :
    digitStep (some a) c = some (a * 10 + d) := by
  unfold digitStep
  rw [h]

lemma foldl_digitStep_natDecG :
    ∀ n a : Nat,
      List.foldl digitStep (some a) (natDecG n) =
        some (a * 10 ^ (natDecG n).length + n) := by
  intro n
  induction n using Nat.strong_induction_on with
  | _ n ih =>
    intro a
    by_cases h10 : n < 10
    · rw [natDecG, if_pos h10]
      simp only [List.foldl_cons, List.foldl_nil, List.length_singleton]
      rw [digitStep_some (digitVal_digitChar h10)]
      norm_num
    · have hdiv : n / 10 < n := Nat.div_lt_self (by omega) (by norm_num)
      rw [natDecG, if_neg h10]
      rw [List.foldl_append, ih (n / 10) hdiv a]
      simp only [List.foldl_cons, List.foldl_nil, List.length_append,
        List.length_singleton]
      rw [digitStep_some (digitVal_digitChar (Nat.mod_lt n (by norm_num)))]
      have hmod : 10 * (n / 10) + n % 10 = n := Nat.div_add_mod n 10
      rw [pow_succ]
      congr 1
      generalize (10 : Nat) ^ (natDecG (n / 10)).length = L
      ring_nf
      omega

lemma parseDigits_natDec (n : Nat) : parseDigits (natDec n) = some n := by
  rw [natDec_eq_natDecG]
  rcases hl : natDecG n with _ | ⟨c, cs⟩
  · exact absurd hl (natDecG_ne_nil n)
  · have hstep : parseDigits (c :: cs) = List.foldl digitStep (some 0) (c :: cs) := rfl
    rw [hstep, ← hl, foldl_digitStep_natDecG]
    norm_num

lemma parseInt64_natDec {m : Nat} (hm : (m : Int) ≤ 2 ^ 63 - 1) :
    parseInt64 (natDec m) = some (m : Int) := by
  rcases hl : natDec m with _ | ⟨c, cs⟩
  · exact absurd (hl.symm.trans (natDec_eq_natDecG m)) (natDecG_ne_nil m).symm
  · have hc : 48 ≤ c.toNat ∧ c.toNat ≤ 57 := by
      apply natDecG_digits m
      rw [← natDec_eq_natDecG, hl]
      exact List.mem_cons_self c cs
    have hminus : ¬c = '-' := by
      intro h; rw [h] at hc; exact absurd hc (by decide)
    have hplus : ¬c = '+' := by
      intro h; rw [h] at hc; exact absurd hc (by decide)
    rw [parseInt64, if_neg hminus, if_neg hplus, ← hl, parseDigits_natDec]
    show (if (m : Int) ≤ 2 ^ 63 - 1 then some ((m : Int)) else none) = some (m : Int)
    rw [if_pos hm]

lemma parseInt64_intDec {T : Int} (h1 : -(2 ^ 63) ≤ T) (h2 : T < 2 ^ 63) :
    parseInt64 (intDec T) = some T := by
  by_cases hT : T < 0
  · rw [intDec, if_pos hT, parseInt64, if_pos rfl, parseDigits_natDec]
    have hcast : (((-T).toNat : Int)) = -T := Int.toNat_of_nonneg (by omega)
    show (if (((-T).toNat : Int)) ≤ 2 ^ 63 then some (-(((-T).toNat : Int))) else none) =
      some T
    rw [hcast, if_pos (by omega)]
    congr 1
    omega
  · rw [intDec, if_neg hT]
    have hcast : ((T.toNat : Int)) = T := Int.toNat_of_nonneg (by omega)
    rw [parseInt64_natDec (by omega), hcast]

/-- Every character of a rendered int64 is a decimal digit or a minus sign. -/
lemma intDec_chars (i : Int) :
    ∀ c ∈ intDec i, (48 ≤ c.toNat ∧ c.toNat ≤ 57) ∨ c.toNat = 45 := by
  intro c hc
  rw [intDec] at hc
  by_cases hi : i < 0
  · rw [if_pos hi] at hc
    rcases List.mem_cons.mp hc with rfl | hmem
    · right; decide
    · left
      rw [natDec_eq_natDecG] at hmem
      exact natDecG_digits _ c hmem
  · rw [if_neg hi, natDec_eq_natDecG] at hc
    left
    exact natDecG_digits _ c hc

/-! ### Trimming and splitting -/

lemma dropWhile_eq_self {p : Char → Bool} :
    ∀ l : List Char, (∀ c ∈ l, p c = false) → List.dropWhile p l = l := by
  intro l h
  cases l with
  | nil => rfl
  | cons a l' =>
    rw [List.dropWhile]
    rw [h a (List.mem_cons_self a l')]

lemma trimSpace_eq_self {l : List Char} (h : ∀ c ∈ l, goIsSpace c = false) :
    trimSpace l = l := by
  unfold trimSpace
  rw [dropWhile_eq_self l h]
  rw [dropWhile_eq_self l.reverse (fun c hc => h c (List.mem_reverse.mp hc))]
  exact List.reverse_reverse l

lemma nonSpace_of_bounds {c : Char} (h1 : 45 ≤ c.toNat) (h2 : c.toNat ≤ 102) :
    goIsSpace c = false := by
  unfold goIsSpace
  simp only [Bool.or_eq_false_iff, decide_eq_false_iff_not]
  refine ⟨⟨⟨⟨⟨⟨⟨?_, ?_⟩, ?_⟩, ?_⟩, ?_⟩, ?_⟩, ?_⟩, ?_⟩ <;>
    · intro h
      rw [h] at h1 h2
      revert h1 h2
      decide

lemma splitComma_no_comma {xs : List Char} (h : ',' ∉ xs) : splitComma xs = [xs] := by
  induction xs with
  | nil => rfl
  | cons a l ih =>
    have ha : ¬a = ',' := fun hh => h (hh ▸ List.mem_cons_self a l)
    rw [splitComma, if_neg ha, ih (fun hm => h (List.mem_cons_of_mem a hm))]

lemma splitComma_append {xs ys : List Char} (h : ',' ∉ xs) :
    splitComma (xs ++ ',' :: ys) = xs :: splitComma ys := by
  induction xs with
  | nil => rw [List.nil_append, splitComma, if_pos rfl]
  | cons a l ih =>
    have ha : ¬a = ',' := fun hh => h (hh ▸ List.mem_cons_self a l)
    rw [List.cons_append, splitComma, if_neg ha,
      ih (fun hm => h (List.mem_cons_of_mem a hm))]

lemma splitEq1_append {k v : List Char} (h : '=' ∉ k) :
    splitEq1 (k ++ '=' :: v) = some (k, v) := by
  induction k with
  | nil => rw [List.nil_append, splitEq1, if_pos rfl]
  | cons a l ih =>
    have ha : ¬a = '=' := fun hh => h (hh ▸ List.mem_cons_self a l)
    rw [List.cons_append, splitEq1, if_neg ha,
      ih (fun hm => h (List.mem_cons_of_mem a hm))]
    rfl

/-! ### The parsing loop as a fold -/

lemma processParts_eq (parts : List (List Char)) :
    ∀ ts h, processParts parts ts h =
      if parts.any isBadT then none
      else some (List.foldl stepTV (ts, h) parts) := by
  induction parts with
  | nil => intro ts h; rfl
  | cons p rest ih =>
    intro ts h
    rcases hkv : kvOf p with _ | ⟨k, v⟩
    · simp only [processParts, hkv, List.any_cons, List.foldl_cons, isBadT, stepTV]
      rw [ih]
      simp
    · by_cases hkt : k = ['t']
      · rcases hpv : parseInt64 v with _ | n
        · simp [processParts, hkv, hkt, hpv, isBadT]
        · simp only [processParts, hkv, hkt, hpv, List.any_cons, List.foldl_cons,
            isBadT, stepTV, if_true, if_pos]
          rw [ih]
          simp [Option.isNone]
      · simp only [processParts, hkv, List.any_cons, List.foldl_cons, isBadT,
          stepTV, if_neg hkt]
        rw [ih, ih]
        by_cases hkv1 : k = ['v', '1'] <;> simp [hkv1]

/-! ### Hex encoded hashes -/

lemma hexDigit_bounds {n : Nat} (h : n < 16) :
    48 ≤ (hexDigit n).toNat ∧ (hexDigit n).toNat ≤ 102 := by
  interval_cases n <;> decide

lemma hexEncode_chars (bs : List Nat) :
    ∀ c ∈ hexEncode bs, 48 ≤ c.toNat ∧ c.toNat ≤ 102 := by
  induction bs with
  | nil => intro c hc; simp [hexEncode] at hc
  | cons b rest ih =>
    intro c hc
    have hcons : hexEncode (b :: rest) =
        hexDigit (b / 16 % 16) :: hexDigit (b % 16) :: hexEncode rest := rfl
    rw [hcons] at hc
    rcases List.mem_cons.mp hc with rfl | hc2
    · exact hexDigit_bounds (Nat.mod_lt _ (by norm_num))
    rcases List.mem_cons.mp hc2 with rfl | hc3
    · exact hexDigit_bounds (Nat.mod_lt _ (by norm_num))
    · exact ih c hc3

lemma hexEncode_ne_nil {bs : List Nat} (h : bs ≠ []) : hexEncode bs ≠ [] := by
  cases bs with
  | nil => exact absurd rfl h
  | cons b rest => simp [hexEncode]

/-! ### Parsing a well formed token -/

lemma genToken_data (T : Int) (hash : String) :
    (genToken T hash).toList =
      (['t', '='] ++ intDec T) ++ ',' :: (['v', '1', '='] ++ hash.data) := by
  show (genToken T hash).data = _
  unfold genToken
  rw [String.data_append, String.data_append, String.data_append]
  show (['t', '='] ++ intDec T) ++ [',', 'v', '1', '='] ++ hash.data = _
  simp [List.append_assoc]

lemma comma_notin_tpart {T : Int} : ',' ∉ ['t', '='] ++ intDec T := by
  intro hmem
  rcases List.mem_append.mp hmem with h1 | h2
  · exact (by decide : ¬(',' ∈ (['t', '='] : List Char))) h1
  · rcases intDec_chars T ',' h2 with ⟨hl, _⟩ | he
    · exact absurd hl (by decide)
    · exact absurd he (by decide)

lemma comma_notin_vpart {hash : String}
    (hb : ∀ c ∈ hash.data, 48 ≤ c.toNat ∧ c.toNat ≤ 102) :
    ',' ∉ ['v', '1', '='] ++ hash.data := by
  intro hmem
  rcases List.mem_append.mp hmem with h1 | h2
  · exact (by decide : ¬(',' ∈ (['v', '1', '='] : List Char))) h1
  · exact absurd (hb ',' h2).1 (by decide)

lemma trimSpace_intDec (T : Int) : trimSpace (intDec T) = intDec T := by
  apply trimSpace_eq_self
  intro c hc
  rcases intDec_chars T c hc with ⟨hl, hr⟩ | he
  · exact nonSpace_of_bounds (by omega) (by omega)
  · exact nonSpace_of_bounds (by omega) (by omega)

lemma kvOf_tpart (T : Int) : kvOf (['t', '='] ++ intDec T) = some (['t'], intDec T) := by
  have hsplit : splitEq1 (['t'] ++ '=' :: intDec T) = some (['t'], intDec T) :=
    splitEq1_append (by decide)
  unfold kvOf
  rw [show (['t', '='] ++ intDec T : List Char) = ['t'] ++ '=' :: intDec T from rfl, hsplit]
  show some (trimSpace ['t'], trimSpace (intDec T)) = some (['t'], intDec T)
  rw [show trimSpace ['t'] = ['t'] from by decide, trimSpace_intDec]

lemma kvOf_vpart {hash : String}
    (hb : ∀ c ∈ hash.data, 48 ≤ c.toNat ∧ c.toNat ≤ 102) :
    kvOf (['v', '1', '='] ++ hash.data) = some (['v', '1'], hash.data) := by
  have hsplit : splitEq1 (['v', '1'] ++ '=' :: hash.data) = some (['v', '1'], hash.data) :=
    splitEq1_append (by decide)
  unfold kvOf
  rw [show (['v', '1', '='] ++ hash.data : List Char) = ['v', '1'] ++ '=' :: hash.data from rfl,
    hsplit]
  show some (trimSpace ['v', '1'], trimSpace hash.data) = some (['v', '1'], hash.data)
  rw [show trimSpace ['v', '1'] = ['v', '1'] from by decide]
  rw [trimSpace_eq_self (fun c hc =>
    nonSpace_of_bounds (by have := hb c hc; omega) (by have := hb c hc; omega))]

lemma parseSignature_genToken {T : Int} {hash : String}
    (hT1 : -(2 ^ 63) ≤ T) (hT2 : T < 2 ^ 63) (hT0 : T ≠ 0)
    (hb : ∀ c ∈ hash.data, 48 ≤ c.toNat ∧ c.toNat ≤ 102)
    (hne : hash.data ≠ []) :
    parseSignature (genToken T hash) = .ok (T, hash) := by
  have hbad1 : isBadT (['t', '='] ++ intDec T) = false := by
    simp only [isBadT, kvOf_tpart, parseInt64_intDec hT1 hT2]
    simp
  have hbad2 : isBadT (['v', '1', '='] ++ hash.data) = false := by
    simp only [isBadT, kvOf_vpart hb]
    rw [if_neg (by decide)]
  have hs1 : stepTV (0, ([] : List Char)) (['t', '='] ++ intDec T) = (T, []) := by
    simp only [stepTV, kvOf_tpart, parseInt64_intDec hT1 hT2]
    simp
  have hs2 : stepTV (T, ([] : List Char)) (['v', '1', '='] ++ hash.data) =
      (T, hash.data) := by
    simp only [stepTV, kvOf_vpart hb]
    rw [if_neg (by decide)]
    simp
  have hp1 : processParts [['t', '='] ++ intDec T, ['v', '1', '='] ++ hash.data] 0 [] =
      some (T, hash.data) := by
    rw [processParts_eq]
    simp only [List.any_cons, List.any_nil, hbad1, hbad2, Bool.or_false,
      List.foldl_cons, List.foldl_nil, hs1, hs2]
    rw [if_neg (by simp)]
  unfold parseSignature
  rw [genToken_data, splitComma_append comma_notin_tpart,
    splitComma_no_comma (comma_notin_vpart hb)]
  rw [if_neg (by norm_num)]
  simp only [hp1]
  rw [if_neg hT0, if_neg hne]

/-! ### The tolerance gate without overflow -/

lemma toleranceExceeded_false {now ts tol : Int} (h0 : 0 ≤ tol) (h1 : tol < 2 ^ 63)
    (hlo : -(tol / 1000000000) ≤ now - ts) (hhi : now - ts ≤ tol / 1000000000) :
    toleranceExceeded now ts tol = false := by
  unfold toleranceExceeded wrap64
  simp only [decide_eq_false_iff_not, not_lt]
  split <;> omega

lemma toleranceExceeded_true {now ts tol : Int} (h0 : 0 ≤ tol) (h1 : tol < 2 ^ 63)
    (hd1 : -(2 ^ 63) < now - ts) (hd2 : now - ts < 2 ^ 63)
    (hfit1 : -(2 ^ 63) < (now - ts) * 1000000000)
    (hfit2 : (now - ts) * 1000000000 < 2 ^ 63)
    (habs : tol / 1000000000 < now - ts ∨ now - ts < -(tol / 1000000000)) :
    toleranceExceeded now ts tol = true := by
  unfold toleranceExceeded wrap64
  simp only [decide_eq_true_eq]
  split <;> omega

lemma genToken_ne_empty (T : Int) (hash : String) : genToken T hash ≠ "" := by
  intro hemp
  have hd := congrArg String.toList hemp
  rw [genToken_data] at hd
  simp at hd

lemma parseSignature_genToken_zero {hash : String}
    (hb : ∀ c ∈ hash.data, 48 ≤ c.toNat ∧ c.toNat ≤ 102) :
    parseSignature (genToken 0 hash) = .error .invalidSignature := by
  have hz0 : parseInt64 (intDec 0) = some 0 := parseInt64_intDec (by norm_num) (by norm_num)
  have hbad1 : isBadT (['t', '='] ++ intDec 0) = false := by
    simp only [isBadT, kvOf_tpart, hz0]
    simp
  have hbad2 : isBadT (['v', '1', '='] ++ hash.data) = false := by
    simp only [isBadT, kvOf_vpart hb]
    rw [if_neg (by decide)]
  have hs1 : stepTV (0, ([] : List Char)) (['t', '='] ++ intDec 0) = (0, []) := by
    simp only [stepTV, kvOf_tpart, hz0]
    simp
  have hs2 : stepTV ((0 : Int), ([] : List Char)) (['v', '1', '='] ++ hash.data) =
      (0, hash.data) := by
    simp only [stepTV, kvOf_vpart hb]
    rw [if_neg (by decide)]
    simp
  have hp1 : processParts [['t', '='] ++ intDec 0, ['v', '1', '='] ++ hash.data] 0 [] =
      some (0, hash.data) := by
    rw [processParts_eq]
    simp only [List.any_cons, List.any_nil, hbad1, hbad2, Bool.or_false,
      List.foldl_cons, List.foldl_nil, hs1, hs2]
    rw [if_neg (by simp)]
  unfold parseSignature
  rw [genToken_data, splitComma_append comma_notin_tpart,
    splitComma_no_comma (comma_notin_vpart hb)]
  rw [if_neg (by norm_num)]
  simp only [hp1]
  simp

/-! ### The verifier's branches -/

lemma secureCompare_refl (a : String) : secureCompare a a = true :=
  secureCompare_iff.mpr rfl

lemma parseSignature_error {s : String} {e : WebhookError}
    (h : parseSignature s = .error e) : e = .invalidSignature := by
  unfold parseSignature at h
  by_cases h2 : (splitComma s.toList).length < 2
  · rw [if_pos h2] at h
    simp only [Except.error.injEq] at h
    exact h.symm
  · rw [if_neg h2] at h
    rcases hp : processParts (splitComma s.toList) 0 [] with _ | ⟨ts, hh⟩ <;>
      simp only [hp] at h
    · simp only [Except.error.injEq] at h
      exact h.symm
    · by_cases hts : ts = 0
      · rw [if_pos hts] at h
        simp only [Except.error.injEq] at h
        exact h.symm
      · rw [if_neg hts] at h
        by_cases hhh : hh = []
        · rw [if_pos hhh] at h
          simp only [Except.error.injEq] at h
          exact h.symm
        · rw [if_neg hhh] at h
          exact absurd h (by simp)

lemma vw_empty_secret {hb pe now sig payload d tol} :
    VerifyWebhook hb pe now sig payload d "" tol = .error .invalidSignature := by
  unfold VerifyWebhook
  rw [if_pos rfl]

lemma vw_empty_sig {hb pe now payload d secret tol} (hsec : secret ≠ "") :
    VerifyWebhook hb pe now "" payload d secret tol = .error .invalidSignature := by
  unfold VerifyWebhook
  rw [if_neg hsec, if_pos rfl]

lemma vw_parse_error {hb pe now sig payload d secret tol e}
    (hsec : secret ≠ "") (hsig : sig ≠ "") (hp : parseSignature sig = .error e) :
    VerifyWebhook hb pe now sig payload d secret tol = .error e := by
  unfold VerifyWebhook
  rw [if_neg hsec, if_neg hsig]
  simp only [hp]

/-- Once the secret and signature are non empty and the token parses, the
verifier continues with the cross check, the tolerance gate, the hash
comparison and the payload parse, in that order. -/
lemma vw_unfold {hb pe now sig payload d secret tol ts hsh}
    (hsec : secret ≠ "") (hsig : sig ≠ "")
    (hp : parseSignature sig = .ok (ts, hsh)) :
    VerifyWebhook hb pe now sig payload d secret tol =
      if d ≠ 0 ∧ d ≠ ts then .error .invalidSignature
      else if toleranceExceeded now ts tol then .error .timestampExpired
      else if !secureCompare hsh (computeHMAC hb (signedPayload ts payload) secret) then
        .error .invalidSignature
      else
        match pe payload with
        | none => .error .payloadParse
        | some event => .ok { event with rawPayload := payload } := by
  unfold VerifyWebhook
  rw [if_neg hsec, if_neg hsig]
  simp only [hp]

lemma vw_cross_mismatch {hb pe now sig payload d secret tol ts hsh}
    (hsec : secret ≠ "") (hsig : sig ≠ "")
    (hp : parseSignature sig = .ok (ts, hsh)) (hd0 : d ≠ 0) (hdts : d ≠ ts) :
    VerifyWebhook hb pe now sig payload d secret tol = .error .invalidSignature := by
  rw [vw_unfold hsec hsig hp, if_pos ⟨hd0, hdts⟩]

lemma vw_expired {hb pe now sig payload d secret tol ts hsh}
    (hsec : secret ≠ "") (hsig : sig ≠ "")
    (hp : parseSignature sig = .ok (ts, hsh)) (hcross : ¬(d ≠ 0 ∧ d ≠ ts))
    (htol : toleranceExceeded now ts tol = true) :
    VerifyWebhook hb pe now sig payload d secret tol = .error .timestampExpired := by
  rw [vw_unfold hsec hsig hp, if_neg hcross, if_pos htol]

lemma vw_hash_mismatch {hb pe now sig payload d secret tol ts hsh}
    (hsec : secret ≠ "") (hsig : sig ≠ "")
    (hp : parseSignature sig = .ok (ts, hsh)) (hcross : ¬(d ≠ 0 ∧ d ≠ ts))
    (htol : toleranceExceeded now ts tol = false)
    (hcmp : secureCompare hsh (computeHMAC hb (signedPayload ts payload) secret) = false) :
    VerifyWebhook hb pe now sig payload d secret tol = .error .invalidSignature := by
  rw [vw_unfold hsec hsig hp, if_neg hcross, htol, hcmp]
  rfl

lemma vw_payload_error {hb pe now sig payload d secret tol ts hsh}
    (hsec : secret ≠ "") (hsig : sig ≠ "")
    (hp : parseSignature sig = .ok (ts, hsh)) (hcross : ¬(d ≠ 0 ∧ d ≠ ts))
    (htol : toleranceExceeded now ts tol = false)
    (hcmp : secureCompare hsh (computeHMAC hb (signedPayload ts payload) secret) = true)
    (hpe : pe payload = none) :
    VerifyWebhook hb pe now sig payload d secret tol = .error .payloadParse := by
  rw [vw_unfold hsec hsig hp, if_neg hcross, htol, hcmp, hpe]
  rfl

lemma vw_ok {hb pe now sig payload d secret tol ts hsh ev}
    (hsec : secret ≠ "") (hsig : sig ≠ "")
    (hp : parseSignature sig = .ok (ts, hsh)) (hcross : ¬(d ≠ 0 ∧ d ≠ ts))
    (htol : toleranceExceeded now ts tol = false)
    (hcmp : secureCompare hsh (computeHMAC hb (signedPayload ts payload) secret) = true)
    (hpe : pe payload = some ev) :
    VerifyWebhook hb pe now sig payload d secret tol =
      .ok { ev with rawPayload := payload } := by
  rw [vw_unfold hsec hsig hp, if_neg hcross, htol, hcmp, hpe]
  rfl

/-! ### The claims -/

/-- C4: the claim that the verifier fails with TimestampExpired exactly when
the absolute difference of now and the token timestamp in seconds exceeds
the tolerance in seconds is the code's clear intent (the constant's own
comment says webhooks older than the tolerance are rejected), but the code
computes the age as time.Duration(diff) times time.Second in int64
arithmetic, which wraps.  Here a correctly signed token timestamped
2 to the 55 seconds (about 1.1 billion years) before now slips through a
five minute tolerance, because 2 to the 55 times 10 to the 9 is 0 modulo
2 to the 64, and verification succeeds outright instead of failing with
TimestampExpired. -/
theorem overflow_timestamp_accepted :
    VerifyWebhook (fun _ _ => List.replicate 32 0)
      (fun s => some { id := "wh_1", event := "message.delivered", timestamp := 1,
                       data := { messageId := "m", recipient := "r", tag := "",
                                 metadata := [], response := none }, rawPayload := s })
      1760000000
      ("t=-36028795258963968,v1=" ++ String.mk (List.replicate 64 '0'))
      "p" 0 "s" 300000000000 =
      .ok { id := "wh_1", event := "message.delivered", timestamp := 1,
            data := { messageId := "m", recipient := "r", tag := "",
                      metadata := [], response := none }, rawPayload := "p" } := by
  decide

/-- C5: the delivery timestamp cross check.  A non zero delivery timestamp
that differs from the token's timestamp makes the verifier fail with
InvalidSignature for every clock value, hash function and event parser
(so before the tolerance and HMAC checks can matter); a delivery timestamp
equal to the token's passes the gate and verification succeeds when the
remaining checks do; and a zero delivery timestamp skips the check
entirely, the run coinciding with the verifier without that branch. -/
theorem VerifyWebhook_cross_check_contract :
    ∀ (hb : String → String → List Nat) (pe : String → Option WebhookEvent)
      (now : Int) (sig payload : String) (d : Int) (secret : String) (tol : Int)
      (ts : Int) (hsh : String) (ev : WebhookEvent),
      (secret ≠ "" → sig ≠ "" → parseSignature sig = .ok (ts, hsh) → d ≠ 0 → d ≠ ts →
        VerifyWebhook hb pe now sig payload d secret tol = .error .invalidSignature) ∧
      (secret ≠ "" → sig ≠ "" → parseSignature sig = .ok (ts, hsh) →
        toleranceExceeded now ts tol = false →
        hsh = computeHMAC hb (signedPayload ts payload) secret →
        pe payload = some ev →
        VerifyWebhook hb pe now sig payload ts secret tol =
          .ok { ev with rawPayload := payload }) ∧
      VerifyWebhook hb pe now sig payload 0 secret tol =
        VerifyWebhookSkipCross hb pe now sig payload secret tol := by
  intro hb pe now sig payload d secret tol ts hsh ev
  refine ⟨?_, ?_, ?_⟩
  · intro hsec hsig hp hd0 hdts
    exact vw_cross_mismatch hsec hsig hp hd0 hdts
  · intro hsec hsig hp htol hhash hpe
    refine vw_ok hsec hsig hp (by simp) htol ?_ hpe
    rw [← hhash]
    exact secureCompare_refl hsh
  · unfold VerifyWebhook VerifyWebhookSkipCross
    by_cases hsec : secret = ""
    · rw [if_pos hsec, if_pos hsec]
    · rw [if_neg hsec, if_neg hsec]
      by_cases hsig : sig = ""
      · rw [if_pos hsig, if_pos hsig]
      · rw [if_neg hsig, if_neg hsig]
        rcases hp : parseSignature sig with e | ⟨ts', hsh'⟩
        · simp only [hp]
        · simp only [hp]
          rw [if_neg (by simp)]

/-- Witness for C5: a delivery timestamp of 7 against a token timestamp of 5
is rejected with InvalidSignature. -/
theorem VerifyWebhook_cross_check_witness :
    VerifyWebhook (fun _ _ => [0]) (fun _ => none) 0 "t=5,v1=ab" "p" 7 "s" 0 =
      .error .invalidSignature :=
  (VerifyWebhook_cross_check_contract (fun _ _ => [0]) (fun _ => none) 0 "t=5,v1=ab"
    "p" 7 "s" 0 5 "ab"
    { id := "", event := "", timestamp := 0,
      data := { messageId := "", recipient := "", tag := "", metadata := [],
                response := none }, rawPayload := "" }).1
    (by decide) (by decide) (by decide) (by decide) (by decide)

/-- C6: a correctly signed payload inside the tolerance window whose body the
event decoder rejects fails with the payload parse error, which is a
distinct error kind from InvalidSignature and from TimestampExpired. -/
theorem VerifyWebhook_authenticated_malformed_payload :
    ∀ (hb : String → String → List Nat) (pe : String → Option WebhookEvent)
      (now : Int) (sig payload : String) (d : Int) (secret : String) (tol : Int)
      (ts : Int),
      secret ≠ "" → sig ≠ "" →
      parseSignature sig = .ok (ts, computeHMAC hb (signedPayload ts payload) secret) →
      (d = 0 ∨ d = ts) →
      toleranceExceeded now ts tol = false →
      pe payload = none →
      VerifyWebhook hb pe now sig payload d secret tol = .error .payloadParse ∧
      WebhookError.payloadParse ≠ WebhookError.invalidSignature ∧
      WebhookError.payloadParse ≠ WebhookError.timestampExpired := by
  intro hb pe now sig payload d secret tol ts hsec hsig hp hcross htol hpe
  refine ⟨?_, by decide, by decide⟩
  refine vw_payload_error hsec hsig hp ?_ htol (secureCompare_refl _) hpe
  rcases hcross with rfl | rfl <;> simp

/-- Witness for C6: a correctly signed non event payload yields the payload
parse error. -/
theorem VerifyWebhook_authenticated_malformed_payload_witness :
    VerifyWebhook (fun _ _ => [0]) (fun _ => none) 5
      (genToken 5 (computeHMAC (fun _ _ => [0]) (signedPayload 5 "p") "s")) "p" 0 "s" 0 =
      .error .payloadParse :=
  (VerifyWebhook_authenticated_malformed_payload (fun _ _ => [0]) (fun _ => none) 5
    (genToken 5 (computeHMAC (fun _ _ => [0]) (signedPayload 5 "p") "s")) "p" 0 "s" 0 5
    (by decide) (by decide) (by decide) (Or.inl rfl) (by decide) rfl).1

/-- C2 counterexample: the claim quantifies over every secret, but the
verifier rejects the empty secret outright.  With the empty secret, the
timestamp equal to now (so the distance is zero, well within the five
minute tolerance), and an event payload the decoder accepts, the generated
token still fails with InvalidSignature rather than verifying. -/
theorem roundTrip_counterexample_empty_secret :
    VerifyWebhook (fun _ _ => List.replicate 32 0)
      (fun s => some { id := "wh_1", event := "message.delivered", timestamp := 1,
                       data := { messageId := "m", recipient := "r", tag := "",
                                 metadata := [], response := none }, rawPayload := s })
      100
      (genToken 100 (computeHMAC (fun _ _ => List.replicate 32 0)
        (signedPayload 100 "p") ""))
      "p" 0 "" 300000000000 = .error .invalidSignature := by
  decide

/-- C2 (amended): the round trip.  For a nonempty secret S, a nonzero int64
timestamp T, and a payload P the event decoder accepts, the token
generated as t equals T, v1 equals the hex encoded MAC of the signed
payload string, verifies successfully whenever now minus T is within the
tolerance in whole seconds (the tolerance a nonnegative int64 nanosecond
duration).  The raw keyed MAC is the abstract parameter; requiring its
output nonempty stands for HMAC-SHA-256 always producing 32 bytes. -/
theorem VerifyWebhook_roundTrip :
    ∀ (hb : String → String → List Nat) (pe : String → Option WebhookEvent)
      (now T : Int) (P S : String) (tol : Int) (ev : WebhookEvent),
      S ≠ "" → T ≠ 0 → -(2 ^ 63) ≤ T → T < 2 ^ 63 →
      0 ≤ tol → tol < 2 ^ 63 →
      -(tol / 1000000000) ≤ now - T → now - T ≤ tol / 1000000000 →
      hb S (signedPayload T P) ≠ [] →
      pe P = some ev →
      VerifyWebhook hb pe now (genToken T (computeHMAC hb (signedPayload T P) S)) P
        0 S tol = .ok { ev with rawPayload := P } := by
  intro hb pe now T P S tol ev hS hT0 hT1 hT2 htol0 htol1 hlo hhi hmac hpe
  have hhash : (computeHMAC hb (signedPayload T P) S).data =
      hexEncode (hb S (signedPayload T P)) := rfl
  have hb1 : ∀ c ∈ (computeHMAC hb (signedPayload T P) S).data,
      48 ≤ c.toNat ∧ c.toNat ≤ 102 := by
    rw [hhash]; exact hexEncode_chars _
  have hne : (computeHMAC hb (signedPayload T P) S).data ≠ [] := by
    rw [hhash]; exact hexEncode_ne_nil hmac
  exact vw_ok hS (genToken_ne_empty T _)
    (parseSignature_genToken hT1 hT2 hT0 hb1 hne) (by simp)
    (toleranceExceeded_false htol0 htol1 hlo hhi) (secureCompare_refl _) hpe

/-- Witness for C2 at a concrete secret, timestamp and payload. -/
theorem VerifyWebhook_roundTrip_witness :
    VerifyWebhook (fun _ _ => [0])
      (fun _ => some { id := "wh_1", event := "message.delivered", timestamp := 1,
                       data := { messageId := "m", recipient := "r", tag := "",
                                 metadata := [], response := none }, rawPayload := "" })
      50 (genToken 50 (computeHMAC (fun _ _ => [0]) (signedPayload 50 "p") "s")) "p"
      0 "s" 0 =
      .ok { id := "wh_1", event := "message.delivered", timestamp := 1,
            data := { messageId := "m", recipient := "r", tag := "",
                      metadata := [], response := none }, rawPayload := "p" } :=
  VerifyWebhook_roundTrip (fun _ _ => [0])
    (fun _ => some { id := "wh_1", event := "message.delivered", timestamp := 1,
                     data := { messageId := "m", recipient := "r", tag := "",
                               metadata := [], response := none }, rawPayload := "" })
    50 50 "p" "s" 0
    { id := "wh_1", event := "message.delivered", timestamp := 1,
      data := { messageId := "m", recipient := "r", tag := "",
                metadata := [], response := none }, rawPayload := "" }
    (by decide) (by decide) (by decide) (by decide) (by decide) (by decide)
    (by decide) (by decide) (by decide) rfl

/-- C10 counterexample: a negative token timestamp 2 to the 55 seconds
before now is far outside the five minute tolerance, yet verification does
not fail with TimestampExpired: the wrapped int64 age computation passes
the gate and the run proceeds to the hash comparison, failing there with
InvalidSignature instead. -/
theorem negative_timestamp_overflow_counterexample :
    VerifyWebhook (fun _ _ => List.replicate 32 1) (fun _ => none) 1760000000
      "t=-36028795258963968,v1=00" "p" 0 "s" 300000000000 =
      .error .invalidSignature := by
  decide

/-- C10 (amended): parseSignature rejects a token timestamp only when it is
exactly zero; every negative int64 timestamp parses (the same token with t
zero fails the format check), and when the distance of the timestamp from
now exceeds the tolerance in seconds and the int64 age computation does
not overflow, the verifier fails with TimestampExpired, not with an
InvalidSignature format error. -/
theorem negative_timestamp_behaviour :
    ∀ (hb : String → String → List Nat) (pe : String → Option WebhookEvent)
      (now T : Int) (payload secret : String) (tol : Int) (hash : String),
      -(2 ^ 63) ≤ T → T < 0 →
      (∀ c ∈ hash.data, 48 ≤ c.toNat ∧ c.toNat ≤ 102) → hash.data ≠ [] →
      secret ≠ "" →
      0 ≤ tol → tol < 2 ^ 63 →
      -(2 ^ 63) < now - T → now - T < 2 ^ 63 →
      -(2 ^ 63) < (now - T) * 1000000000 → (now - T) * 1000000000 < 2 ^ 63 →
      (tol / 1000000000 < now - T ∨ now - T < -(tol / 1000000000)) →
      parseSignature (genToken T hash) = .ok (T, hash) ∧
      parseSignature (genToken 0 hash) = .error .invalidSignature ∧
      VerifyWebhook hb pe now (genToken T hash) payload 0 secret tol =
        .error .timestampExpired := by
  intro hb pe now T payload secret tol hash hT1 hTneg hhb hne hsec htol0 htol1
    hd1 hd2 hf1 hf2 habs
  have hp := parseSignature_genToken hT1 (by omega) (by omega) hhb hne
  refine ⟨hp, parseSignature_genToken_zero hhb, ?_⟩
  exact vw_expired hsec (genToken_ne_empty T hash) hp (by simp)
    (toleranceExceeded_true htol0 htol1 hd1 hd2 hf1 hf2 habs)

/-- Witness for C10: timestamp minus one, clock at 1000, tolerance zero. -/
theorem negative_timestamp_behaviour_witness :
    VerifyWebhook (fun _ _ => [0]) (fun _ => none) 1000 (genToken (-1) "ab") "p" 0 "s" 0 =
      .error .timestampExpired :=
  (negative_timestamp_behaviour (fun _ _ => [0]) (fun _ => none) 1000 (-1) "p" "s" 0 "ab"
    (by decide) (by decide) (by decide) (by decide) (by decide) (by decide) (by decide)
    (by decide) (by decide) (by decide) (by decide) (Or.inl (by decide))).2.2

/-- parseSignature written as one if chain over the fold form of its loop. -/
lemma parseSignature_eq (s : String) :
    parseSignature s =
      if (splitComma s.toList).length < 2 then .error .invalidSignature
      else if (splitComma s.toList).any isBadT then .error .invalidSignature
      else if (List.foldl stepTV (0, []) (splitComma s.toList)).1 = 0 then
        .error .invalidSignature
      else if (List.foldl stepTV (0, []) (splitComma s.toList)).2 = [] then
        .error .invalidSignature
      else
        .ok ((List.foldl stepTV (0, []) (splitComma s.toList)).1,
          String.mk (List.foldl stepTV (0, []) (splitComma s.toList)).2) := by
  unfold parseSignature
  simp only [processParts_eq]
  by_cases hlen : (splitComma s.toList).length < 2
  · rw [if_pos hlen, if_pos hlen]
  · rw [if_neg hlen, if_neg hlen]
    by_cases hany : (splitComma s.toList).any isBadT = true
    · rw [if_pos hany, if_pos hany]
    · rw [if_neg hany, if_neg hany]

/-- C1: an event is produced only behind a passing cryptographic check.  A
successful run means the token parsed with a v1 hash equal to the hex
encoded MAC of the signed payload string and the event came from the
decoder; a payload parse failure equally presupposes the matching hash (the
decoder runs strictly after the comparison succeeds); and on every earlier
failure the result does not depend on the event decoder at all, so the
decoder cannot have run — and an error result carries no event by
construction. -/
theorem VerifyWebhook_event_requires_hmac :
    ∀ (hb : String → String → List Nat) (pe pe' : String → Option WebhookEvent)
      (now : Int) (sig payload : String) (d : Int) (secret : String) (tol : Int),
      (∀ ev, VerifyWebhook hb pe now sig payload d secret tol = .ok ev →
        (∃ ts, parseSignature sig =
            .ok (ts, computeHMAC hb (signedPayload ts payload) secret)) ∧
        (∃ ev0, pe payload = some ev0 ∧ ev = { ev0 with rawPayload := payload })) ∧
      (VerifyWebhook hb pe now sig payload d secret tol = .error .payloadParse →
        ∃ ts, parseSignature sig =
          .ok (ts, computeHMAC hb (signedPayload ts payload) secret)) ∧
      (∀ e, VerifyWebhook hb pe now sig payload d secret tol = .error e →
        e ≠ .payloadParse →
        VerifyWebhook hb pe' now sig payload d secret tol =
          VerifyWebhook hb pe now sig payload d secret tol) := by
  intro hb pe pe' now sig payload d secret tol
  by_cases hsec : secret = ""
  · subst hsec
    refine ⟨?_, ?_, ?_⟩
    · intro ev hok
      rw [vw_empty_secret] at hok
      exact absurd hok (by simp)
    · intro hok
      rw [vw_empty_secret] at hok
      simp at hok
    · intro e h1 h2
      rw [vw_empty_secret, vw_empty_secret]
  · by_cases hsig : sig = ""
    · subst hsig
      refine ⟨?_, ?_, ?_⟩
      · intro ev hok
        rw [vw_empty_sig hsec] at hok
        exact absurd hok (by simp)
      · intro hok
        rw [vw_empty_sig hsec] at hok
        simp at hok
      · intro e h1 h2
        rw [vw_empty_sig hsec, vw_empty_sig hsec]
    · rcases hp : parseSignature sig with e0 | ⟨ts, hsh⟩
      · refine ⟨?_, ?_, ?_⟩
        · intro ev hok
          rw [vw_parse_error hsec hsig hp] at hok
          exact absurd hok (by simp)
        · intro hok
          rw [vw_parse_error hsec hsig hp] at hok
          rcases parseSignature_error hp with rfl
          simp at hok
        · intro e h1 h2
          rw [vw_parse_error hsec hsig hp, vw_parse_error hsec hsig hp]
      · by_cases hcross : d ≠ 0 ∧ d ≠ ts
        · refine ⟨?_, ?_, ?_⟩
          · intro ev hok
            rw [vw_cross_mismatch hsec hsig hp hcross.1 hcross.2] at hok
            exact absurd hok (by simp)
          · intro hok
            rw [vw_cross_mismatch hsec hsig hp hcross.1 hcross.2] at hok
            simp at hok
          · intro e h1 h2
            rw [vw_cross_mismatch hsec hsig hp hcross.1 hcross.2,
              vw_cross_mismatch hsec hsig hp hcross.1 hcross.2]
        · cases htol : toleranceExceeded now ts tol with
          | true =>
            refine ⟨?_, ?_, ?_⟩
            · intro ev hok
              rw [vw_expired hsec hsig hp hcross htol] at hok
              exact absurd hok (by simp)
            · intro hok
              rw [vw_expired hsec hsig hp hcross htol] at hok
              simp at hok
            · intro e h1 h2
              rw [vw_expired hsec hsig hp hcross htol,
                vw_expired hsec hsig hp hcross htol]
          | false =>
            cases hcmp : secureCompare hsh
                (computeHMAC hb (signedPayload ts payload) secret) with
            | false =>
              refine ⟨?_, ?_, ?_⟩
              · intro ev hok
                rw [vw_hash_mismatch hsec hsig hp hcross htol hcmp] at hok
                exact absurd hok (by simp)
              · intro hok
                rw [vw_hash_mismatch hsec hsig hp hcross htol hcmp] at hok
                simp at hok
              · intro e h1 h2
                rw [vw_hash_mismatch hsec hsig hp hcross htol hcmp,
                  vw_hash_mismatch hsec hsig hp hcross htol hcmp]
            | true =>
              have hsheq : hsh = computeHMAC hb (signedPayload ts payload) secret :=
                secureCompare_iff.mp hcmp
              rcases hpe : pe payload with _ | ev0
              · refine ⟨?_, ?_, ?_⟩
                · intro ev hok
                  rw [vw_payload_error hsec hsig hp hcross htol hcmp hpe] at hok
                  exact absurd hok (by simp)
                · intro _
                  exact ⟨ts, by rw [hsheq]⟩
                · intro e h1 h2
                  rw [vw_payload_error hsec hsig hp hcross htol hcmp hpe] at h1
                  simp only [Except.error.injEq] at h1
                  exact absurd h1.symm h2
              · refine ⟨?_, ?_, ?_⟩
                · intro ev hok
                  rw [vw_ok hsec hsig hp hcross htol hcmp hpe] at hok
                  simp only [Except.ok.injEq] at hok
                  cases hok
                  exact ⟨⟨ts, by rw [hsheq]⟩, ⟨ev0, rfl, rfl⟩⟩
                · intro hok
                  rw [vw_ok hsec hsig hp hcross htol hcmp hpe] at hok
                  simp at hok
                · intro e h1 h2
                  rw [vw_ok hsec hsig hp hcross htol hcmp hpe] at h1
                  simp at h1

/-- Witness for C1: with an empty secret the run fails before any
cryptographic or parsing work, so swapping the event decoder leaves the
result unchanged. -/
theorem VerifyWebhook_event_requires_hmac_witness :
    VerifyWebhook (fun _ _ => [0]) (fun _ => none) 0 "t=1,v1=ab" "p" 0 "" 0 =
      VerifyWebhook (fun _ _ => [0])
        (fun s => some { id := "x", event := "y", timestamp := 0,
                         data := { messageId := "", recipient := "", tag := "",
                                   metadata := [], response := none },
                         rawPayload := s }) 0 "t=1,v1=ab" "p" 0 "" 0 :=
  (VerifyWebhook_event_requires_hmac (fun _ _ => [0])
    (fun s => some { id := "x", event := "y", timestamp := 0,
                     data := { messageId := "", recipient := "", tag := "",
                               metadata := [], response := none },
                     rawPayload := s })
    (fun _ => none) 0 "t=1,v1=ab" "p" 0 "" 0).2.2
    .invalidSignature (by decide) (by decide)

/-- C7: the verifier yields InvalidSignature exactly for an empty secret, an
empty signature string, a token the parser rejects, a non zero delivery
timestamp differing from the token's, or a hash comparison failure reached
behind the earlier gates; and with an empty secret or an empty signature
string it yields InvalidSignature for every hash function, event decoder,
clock, payload, delivery timestamp and tolerance, before any token parsing
or cryptographic work can have an effect. -/
theorem VerifyWebhook_invalidSignature_exactly :
    ∀ (hb : String → String → List Nat) (pe : String → Option WebhookEvent)
      (now : Int) (sig payload : String) (d : Int) (secret : String) (tol : Int),
      (VerifyWebhook hb pe now sig payload d secret tol = .error .invalidSignature ↔
        secret = "" ∨ sig = "" ∨
        parseSignature sig = .error .invalidSignature ∨
        (∃ ts hsh, parseSignature sig = .ok (ts, hsh) ∧
          ((d ≠ 0 ∧ d ≠ ts) ∨
            (¬(d ≠ 0 ∧ d ≠ ts) ∧ toleranceExceeded now ts tol = false ∧
              secureCompare hsh
                (computeHMAC hb (signedPayload ts payload) secret) = false)))) ∧
      (secret = "" ∨ sig = "" →
        ∀ (hb' : String → String → List Nat) (pe' : String → Option WebhookEvent)
          (now' : Int) (payload' : String) (d' tol' : Int),
          VerifyWebhook hb' pe' now' sig payload' d' secret tol' =
            .error .invalidSignature) := by
  intro hb pe now sig payload d secret tol
  constructor
  · constructor
    · intro hinv
      by_cases hsec : secret = ""
      · exact Or.inl hsec
      by_cases hsig : sig = ""
      · exact Or.inr (Or.inl hsig)
      rcases hp : parseSignature sig with e0 | ⟨ts, hsh⟩
      · rcases parseSignature_error hp with rfl
        exact Or.inr (Or.inr (Or.inl rfl))
      refine Or.inr (Or.inr (Or.inr ⟨ts, hsh, rfl, ?_⟩))
      by_cases hcross : d ≠ 0 ∧ d ≠ ts
      · exact Or.inl hcross
      refine Or.inr ⟨hcross, ?_⟩
      cases htol : toleranceExceeded now ts tol with
      | true =>
        rw [vw_expired hsec hsig hp hcross htol] at hinv
        simp at hinv
      | false =>
        cases hcmp : secureCompare hsh
            (computeHMAC hb (signedPayload ts payload) secret) with
        | false => exact ⟨rfl, rfl⟩
        | true =>
          rcases hpe : pe payload with _ | ev0
          · rw [vw_payload_error hsec hsig hp hcross htol hcmp hpe] at hinv
            simp at hinv
          · rw [vw_ok hsec hsig hp hcross htol hcmp hpe] at hinv
            simp at hinv
    · intro hcase
      by_cases hsec : secret = ""
      · subst hsec
        exact vw_empty_secret
      by_cases hsig : sig = ""
      · subst hsig
        exact vw_empty_sig hsec
      rcases hcase with rfl | rfl | hperr | ⟨ts, hsh, hp, hrest⟩
      · exact absurd rfl hsec
      · exact absurd rfl hsig
      · exact vw_parse_error hsec hsig hperr
      · rcases hrest with ⟨hd0, hdts⟩ | ⟨hcross, htol, hcmp⟩
        · exact vw_cross_mismatch hsec hsig hp hd0 hdts
        · exact vw_hash_mismatch hsec hsig hp hcross htol hcmp
  · intro hcase hb' pe' now' payload' d' tol'
    by_cases hsec : secret = ""
    · subst hsec
      exact vw_empty_secret
    · rcases hcase with rfl | rfl
      · exact absurd rfl hsec
      · exact vw_empty_sig hsec

/-- C3: the header parser's contract.  It succeeds exactly when the failure
condition written from the specification does not hold (at least two comma
separated segments, no t segment with a non integer value, an effective
timestamp that is nonzero and an effective hash that is nonempty); every
failure carries the InvalidSignature kind; on success the returned pair is
exactly the timestamp and hash the key value loop left behind; and each of
the five malformed header examples fails with InvalidSignature. -/
theorem parseSignature_contract :
    (∀ s : String, (∃ p, parseSignature s = .ok p) ↔ ¬specParseFailure s) ∧
    (∀ (s : String) (e : WebhookError), parseSignature s = .error e →
      e = .invalidSignature) ∧
    (∀ (s : String) (ts : Int) (h : String), parseSignature s = .ok (ts, h) →
      ts = (List.foldl stepTV (0, []) (splitComma s.toList)).1 ∧
      h = String.mk (List.foldl stepTV (0, []) (splitComma s.toList)).2) ∧
    parseSignature "" = .error .invalidSignature ∧
    parseSignature "invalid" = .error .invalidSignature ∧
    parseSignature "t=123" = .error .invalidSignature ∧
    parseSignature "v1=abc" = .error .invalidSignature ∧
    parseSignature "t=abc,v1=xyz" = .error .invalidSignature := by
  refine ⟨?_, fun s e h => parseSignature_error h, ?_, by decide, by decide, by decide,
    by decide, by decide⟩
  · intro s
    rw [parseSignature_eq s]
    unfold specParseFailure
    by_cases h1 : (splitComma s.toList).length < 2
    · rw [if_pos h1]
      constructor
      · rintro ⟨p, hp⟩
        exact absurd hp (by simp)
      · intro hno
        exact absurd (Or.inl h1) hno
    by_cases h2 : (splitComma s.toList).any isBadT = true
    · rw [if_neg h1, if_pos h2]
      constructor
      · rintro ⟨p, hp⟩
        exact absurd hp (by simp)
      · intro hno
        exact absurd (Or.inr (Or.inl (List.any_eq_true.mp h2))) hno
    by_cases h3 : (List.foldl stepTV (0, []) (splitComma s.toList)).1 = 0
    · rw [if_neg h1, if_neg h2, if_pos h3]
      constructor
      · rintro ⟨p, hp⟩
        exact absurd hp (by simp)
      · intro hno
        exact absurd (Or.inr (Or.inr (Or.inl h3))) hno
    by_cases h4 : (List.foldl stepTV (0, []) (splitComma s.toList)).2 = []
    · rw [if_neg h1, if_neg h2, if_neg h3, if_pos h4]
      constructor
      · rintro ⟨p, hp⟩
        exact absurd hp (by simp)
      · intro hno
        exact absurd (Or.inr (Or.inr (Or.inr h4))) hno
    · rw [if_neg h1, if_neg h2, if_neg h3, if_neg h4]
      constructor
      · intro _
        rintro (hc | hc | hc | hc)
        · exact h1 hc
        · exact h2 (List.any_eq_true.mpr hc)
        · exact h3 hc
        · exact h4 hc
      · intro _
        exact ⟨_, rfl⟩
  · intro s ts h hok
    rw [parseSignature_eq s] at hok
    by_cases h1 : (splitComma s.toList).length < 2
    · rw [if_pos h1] at hok
      exact absurd hok (by simp)
    rw [if_neg h1] at hok
    by_cases h2 : (splitComma s.toList).any isBadT = true
    · rw [if_pos h2] at hok
      exact absurd hok (by simp)
    rw [if_neg h2] at hok
    by_cases h3 : (List.foldl stepTV (0, []) (splitComma s.toList)).1 = 0
    · rw [if_pos h3] at hok
      exact absurd hok (by simp)
    rw [if_neg h3] at hok
    by_cases h4 : (List.foldl stepTV (0, []) (splitComma s.toList)).2 = []
    · rw [if_pos h4] at hok
      exact absurd hok (by simp)
    rw [if_neg h4] at hok
    injection hok with hpair
    exact ⟨(congrArg Prod.fst hpair).symm, (congrArg Prod.snd hpair).symm⟩

end Lettermint
